import Mathlib

/-!
# Verification of the request signer and response normaliser of `stratumclient`

Shallow embedding of `stratumclient.go`.

* A Go `string` / `[]byte` is a finite sequence of bytes: `List (Fin 256)`.
  Go compares strings byte-wise lexicographically, which is the order Mathlib puts
  on `List (Fin 256)`.
* `url.Values` is `map[string][]string`.  A map is modelled by the list of its
  entries, listed in the order in which `range` visits them; a well-formed map has
  pairwise distinct keys (`Values.WF`).
* A run-time panic is the result `none`.
-/

namespace Stratumclient

/-- One byte. -/
abbrev Byte := Fin 256

/-- Go `string`: an immutable sequence of bytes. -/
abbrev GoString := List Byte

/-- Byte sequence of a string literal (UTF-8 encoding of its characters). -/
def lit (s : String) : GoString :=
  s.data.flatMap (fun c => (String.utf8EncodeChar c).map (fun b => b.val))

/-- Go `url.Values`, i.e. `map[string][]string`, as the list of its entries in `range` order. -/
abbrev Values := List (GoString × List GoString)

namespace Values

/-- Keys of the map, in `range` order. -/
def keys (v : Values) : List GoString := v.map Prod.fst

/-- Well-formedness of a map: no key occurs twice. -/
def WF (v : Values) : Prop := (keys v).Nodup

instance (v : Values) : Decidable (WF v) := by
  unfold WF; infer_instance

/-- Map indexing `v[key]`; a missing key yields the zero value, the nil slice. -/
def index (v : Values) (key : GoString) : List GoString :=
  match v.find? (fun e => decide (e.1 = key)) with
  | some e => e.2
  | none => []

/-- Method `url.Values.Get`: first value of `key`, or the empty string if there is none. -/
def Get (v : Values) (key : GoString) : GoString :=
  match index v key with
  | [] => []
  | x :: _ => x

/-- Map assignment `v[key] = vs`. -/
def assign (v : Values) (key : GoString) (vs : List GoString) : Values :=
  if key ∈ keys v then v.map (fun e => if e.1 = key then (key, vs) else e)
  else v ++ [(key, vs)]

/-- Method `url.Values.Set`: `v[key] = []string{value}`. -/
def Set (v : Values) (key value : GoString) : Values :=
  assign v key [value]

/-- Method `url.Values.Add`: `v[key] = append(v[key], value)`. -/
def Add (v : Values) (key value : GoString) : Values :=
  assign v key (index v key ++ [value])

/-- Method `url.Values.Del`: `delete(v, key)`. -/
def Del (v : Values) (key : GoString) : Values :=
  v.filter (fun e => decide (e.1 ≠ key))

end Values

/-- Go comparison `a < b` of two strings: byte by byte, a proper prefix being smaller. -/
def goStringLess : GoString → GoString → Bool
  | [], [] => false
  | [], _ :: _ => true
  | _ :: _, [] => false
  | a :: as, b :: bs =>
    if a < b then true else if b < a then false else goStringLess as bs

/-- Library function `sort.Strings`: sorts a slice of strings in increasing order.  The
order of `List (Fin 256)` is the one computed by `goStringLess`, and the sorted
arrangement of a list is unique, so the sorting algorithm does not matter. -/
def sortStrings (keys : List GoString) : List GoString :=
  keys.insertionSort (· ≤ ·)

/-- The key of the signature field. -/
def apiSigKey : GoString := lit "api_sig"

/-- Keys collected by the first loop of `makeSigMsg`. -/
def sigKeys (data : Values) : List GoString :=
  data.foldl (fun keys e => if e.1 ≠ apiSigKey then keys ++ [e.1] else keys) []

/-- String built by the second loop of `makeSigMsg`. -/
def sigBody (data : Values) (keys : List GoString) : GoString :=
  keys.foldl (fun testStr key => testStr ++ (key ++ lit "=" ++ Values.Get data key ++ lit "&")) []

/-- Slice expression `s[:len(s)-1]`; panics when `s` is empty. -/
def trimLast (s : GoString) : Option GoString :=
  if s.length = 0 then none else some (s.take (s.length - 1))

/-- Function `makeSigMsg`: message to sign, built from the form values. -/
def makeSigMsg (data : Values) : Option GoString :=
  let keys := sortStrings (sigKeys data)
  trimLast (sigBody data keys)

/-- Rendering of one key by the second loop of `makeSigMsg`, without the separator. -/
def renderKey (data : Values) (key : GoString) : GoString :=
  key ++ lit "=" ++ Values.Get data key

/-- Table `hextable` of `encoding/hex`. -/
def hextable : GoString := lit "0123456789abcdef"

/-- Library function `hex.EncodeToString`: two lower-case hexadecimal digits per byte. -/
def hexEncode (src : List Byte) : GoString :=
  src.flatMap (fun b => [hextable.getD (b.val / 16) 0, hextable.getD (b.val % 16) 0])

/-- Function `makeSig`: hex-encoded keyed digest of `msg`.  The digest
`hmac.New(sha256.New, key)` followed by `Write(msg)` and `Sum(nil)` is the library
function `hmacSha256 key msg`. -/
def makeSig (hmacSha256 : List Byte → List Byte → List Byte) (key : List Byte)
    (msg : GoString) : GoString :=
  hexEncode (hmacSha256 key msg)

/-- Function `concat`: the arguments written one after the other into a buffer. -/
def concat (astring : List GoString) : GoString :=
  astring.foldl (fun b s => b ++ s) []

/-- Decimal digits of a natural number. -/
def decimalDigits (n : Nat) : GoString :=
  (Nat.toDigits 10 n).flatMap (fun c => (String.utf8EncodeChar c).map (fun b => b.val))

/-- Library function `strconv.FormatInt(i, 10)`. -/
def formatInt10 (i : Int) : GoString :=
  match i with
  | Int.ofNat n => decimalDigits n
  | Int.negSucc n => lit "-" ++ decimalDigits (n + 1)

/-- Constant `StatusOK`. -/
def StatusOK : GoString := lit "ok"

/-- Constant `StatusFAIL`. -/
def StatusFAIL : GoString := lit "failed"

/-- Go `error` value, observed through its method `Error()`. -/
structure GoError where
  /-- Result of `Error()`. -/
  text : GoString
deriving DecidableEq

/-- Value held by a field of type `interface{}`: a Go string, or a value of the type `J`
of the values the JSON decoder stores. -/
inductive Dyn (J : Type) where
  | str (s : GoString)
  | decoded (j : J)
deriving DecidableEq

/-- Type `ResultHeader`. -/
structure ResultHeader where
  Status : GoString
  Message : GoString
  Code : GoString
deriving DecidableEq

/-- Type `Result`; `none` is the nil interface for `Data` and the nil slice for `Raw`. -/
structure Result (J : Type) extends ResultHeader where
  Data : Option (Dyn J)
  Raw : Option (List Byte)
deriving DecidableEq

/-- Zero value of `Result`, the value of `var answer Result`. -/
def Result.zero (J : Type) : Result J :=
  { Status := [], Message := [], Code := [], Data := none, Raw := none }

/-- Type `StratumClient`; the two durations are in nanoseconds. -/
structure StratumClient where
  apiKey : GoString
  apiKeySecret : GoString
  endpoint : GoString
  netTransportTimeout : Int
  netClientTimeout : Int
deriving DecidableEq

/-- Function `New`. -/
def New (user secret : GoString) : StratumClient :=
  { apiKey := user
    apiKeySecret := secret
    endpoint := lit "https://stratum.global/api/"
    netTransportTimeout := 5 * 1000000000
    netClientTimeout := 10 * 1000000000 }

/-- Outcome of `netClient.PostForm` followed, when it succeeds, by `ioutil.ReadAll` of the
response body (whose own error the code discards). -/
inductive PostOutcome where
  | failed (err : GoError)
  | response (body : List Byte)
deriving DecidableEq

/-- What `CallRestApi` obtains from outside the package. -/
structure Env (J : Type) where
  /-- Value of `time.Now().Unix()`. -/
  now : Int
  /-- Order in which `range` visits the entries of a freshly built map. -/
  rangeOrder : Values → Values
  /-- Keyed digest HMAC-SHA256. -/
  hmacSha256 : List Byte → List Byte → List Byte
  /-- Method `PostForm` of a client with the given transport and client timeouts, applied
  to a URL and a form. -/
  postForm : Int → Int → GoString → Values → PostOutcome
  /-- Call `ffjson.NewDecoder().Decode(body, &answer)`: the updated `answer` and the error. -/
  decode : List Byte → Result J → Result J × Option GoError

/-- First part of `CallRestApi`: the data package with its signature. -/
def signedForm {J : Type} (c : StratumClient) (env : Env J) (payload : List Byte) :
    Option Values :=
  let mytime := env.now
  let sdata : Values := env.rangeOrder
    [ (lit "api_ts", [formatInt10 mytime]),
      (lit "api_user", [c.apiKey]),
      (lit "payload", [payload]) ]
  match makeSigMsg sdata with
  | none => none
  | some msg =>
    let apiSig := makeSig env.hmacSha256 c.apiKeySecret msg
    some (Values.Add sdata (lit "api_sig") apiSig)

/-- Second part of `CallRestApi`: normalisation of the outcome of the call. -/
def normalize {J : Type} (env : Env J) (decode : Bool) (outcome : PostOutcome) :
    Result J × Option GoError :=
  let answer : Result J := Result.zero J
  match outcome with
  | PostOutcome.failed err =>
    ({ answer with Status := StatusFAIL, Message := lit "Call failed",
                   Data := some (Dyn.str err.text) }, some err)
  | PostOutcome.response body =>
    let err : Option GoError := none
    if decode then
      match env.decode body answer with
      | (answer, some err) =>
        ({ answer with Status := StatusFAIL, Message := lit "Decoding json failed",
                       Data := some (Dyn.str err.text) }, some err)
      | (answer, none) => (answer, none)
    else
      match err with
      | some err =>
        ({ answer with Status := StatusFAIL, Message := lit "Decoding body failed",
                       Data := some (Dyn.str err.text) }, some err)
      | none =>
        ({ answer with Status := StatusOK, Message := lit "Request ok", Raw := some body },
          none)

/-- Method `CallRestApi`; `none` is a panic. -/
def CallRestApi {J : Type} (c : StratumClient) (env : Env J) (mod action : GoString)
    (payload : List Byte) (decode : Bool) : Option (Result J × Option GoError) :=
  match signedForm c env payload with
  | none => none
  | some sdata =>
    let url := concat [c.endpoint, mod, lit "/", action]
    some (normalize env decode
      (env.postForm c.netTransportTimeout c.netClientTimeout url sdata))

/-! ## Sample environments, used to instantiate the theorems -/

/-- A stand-in for the keyed digest: key followed by message. -/
def sampleDigest (key msg : List Byte) : List Byte := key ++ msg

/-- The client of the end-to-end scenarios. -/
def sampleClient : StratumClient := New (lit "alice") (lit "s3cret")

/-- An environment whose transport refuses the connection. -/
def refusingEnv : Env Unit :=
  { now := 1000
    rangeOrder := List.reverse
    hmacSha256 := sampleDigest
    postForm := fun _ _ _ _ => PostOutcome.failed { text := lit "connection refused" }
    decode := fun _ answer => (answer, none) }

/-- The error of the refused connection. -/
def refusedError : GoError := { text := lit "connection refused" }

/-- The result expected from a call through `refusingEnv`. -/
def refusedResult : Result Unit :=
  { Status := lit "failed", Message := lit "Call failed", Code := [],
    Data := some (Dyn.str (lit "connection refused")), Raw := none }

/-- The result expected from a call without decoding answered by `<html>`. -/
def rawResult : Result Unit :=
  { Status := lit "ok", Message := lit "Request ok", Code := [],
    Data := none, Raw := some (lit "<html>") }

/-- An environment whose transport answers with `body`.  Its decoder accepts the empty
JSON object, for which it assigns no field, and rejects every other body. -/
def answeringEnv (body : List Byte) : Env Unit :=
  { now := 1000
    rangeOrder := List.reverse
    hmacSha256 := sampleDigest
    postForm := fun _ _ _ _ => PostOutcome.response body
    decode := fun b answer =>
      if b = lit "{}" then (answer, none)
      else (answer, some { text := lit "invalid character" }) }

/-! ## Auxiliary facts about the two loops and the final slice -/

theorem foldl_append_flatMap {α β : Type} (f : α → List β) (l : List α) (init : List β) :
    l.foldl (fun acc x => acc ++ f x) init = init ++ l.flatMap f := by
  induction l generalizing init with
  | nil => simp
  | cons x xs ih => simp [List.foldl_cons, ih, List.flatMap_cons, List.append_assoc]

theorem sigKeys_eq_filter (data : Values) :
    sigKeys data = (Values.keys data).filter (fun k => decide (k ≠ apiSigKey)) := by
  have h : ∀ (l : Values) (init : List GoString),
      l.foldl (fun keys e => if e.1 ≠ apiSigKey then keys ++ [e.1] else keys) init
        = init ++ (l.map Prod.fst).filter (fun k => decide (k ≠ apiSigKey)) := by
    intro l
    induction l with
    | nil => intro init; simp
    | cons e es ih =>
      intro init
      rw [List.foldl_cons, ih]
      by_cases hk : e.1 = apiSigKey
      · simp [hk]
      · simp [hk, List.filter_cons]
  simpa [sigKeys, Values.keys] using h data []

theorem sigBody_eq_flatMap (data : Values) (ks : List GoString) :
    sigBody data ks = ks.flatMap (fun k => renderKey data k ++ lit "&") := by
  unfold sigBody renderKey
  rw [foldl_append_flatMap]
  simp

theorem flatMap_sep_eq_intercalate {α : Type} (f : α → GoString) (sep : GoString) :
    ∀ (x : α) (xs : List α),
      (x :: xs).flatMap (fun k => f k ++ sep) = sep.intercalate ((x :: xs).map f) ++ sep
  | x, [] => by simp [List.intercalate, List.flatMap_cons]
  | x, y :: ys => by
    have ih := flatMap_sep_eq_intercalate f sep y ys
    rw [List.flatMap_cons, ih]
    simp [List.intercalate, List.intersperse, List.append_assoc]

theorem trimLast_append_singleton (s : GoString) (c : Byte) :
    trimLast (s ++ [c]) = some s := by
  simp [trimLast]

theorem lit_amp : lit "&" = [(38 : Byte)] := by decide

/-- Normal form of `makeSigMsg`: a panic when no key is kept, otherwise the renderings of
the sorted keys joined by the separator. -/
theorem makeSigMsg_eq (data : Values) :
    makeSigMsg data =
      match sortStrings (sigKeys data) with
      | [] => none
      | k :: ks => some ((lit "&").intercalate ((k :: ks).map (renderKey data))) := by
  unfold makeSigMsg
  simp only [sigBody_eq_flatMap]
  cases h : sortStrings (sigKeys data) with
  | nil => simp [trimLast]
  | cons k ks =>
    simp only []
    rw [flatMap_sep_eq_intercalate, lit_amp, trimLast_append_singleton]

theorem sortStrings_perm (l : List GoString) : (sortStrings l).Perm l :=
  List.perm_insertionSort _ l

theorem sortStrings_sorted (l : List GoString) : (sortStrings l).Sorted (· ≤ ·) :=
  List.sorted_insertionSort _ l

theorem sortStrings_eq_nil_iff (l : List GoString) : sortStrings l = [] ↔ l = [] := by
  constructor
  · intro h
    have := sortStrings_perm l
    rw [h] at this
    exact List.Perm.eq_nil this.symm
  · intro h; subst h; rfl

theorem cons_lt_cons_iff_bytes (a b : Byte) (as bs : GoString) :
    a :: as < b :: bs ↔ a < b ∨ (a = b ∧ as < bs) := by
  constructor
  · intro h
    cases h with
    | cons h' => exact Or.inr ⟨rfl, h'⟩
    | rel h' => exact Or.inl h'
  · rintro (h | ⟨rfl, h⟩)
    · exact List.Lex.rel h
    · exact List.Lex.cons h

/-- The order used by `sortStrings` is Go's byte-wise string comparison. -/
theorem goStringLess_iff (a b : GoString) : goStringLess a b = true ↔ a < b := by
  induction a generalizing b with
  | nil =>
    cases b with
    | nil => simp [goStringLess]
    | cons y ys => simp [goStringLess, List.nil_lt_cons]
  | cons x xs ih =>
    cases b with
    | nil =>
      simp only [goStringLess]
      constructor
      · intro h; cases h
      · intro h; cases h
    | cons y ys =>
      rw [cons_lt_cons_iff_bytes]
      unfold goStringLess
      by_cases h1 : x < y
      · simp [h1]
      · by_cases h2 : y < x
        · have : x ≠ y := fun h => by subst h; exact h1 h2
          simp [h1, h2, this]
        · have : x = y := le_antisymm (not_lt.1 h2) (not_lt.1 h1)
          subst this
          simp [ih]

/-- Every sorted arrangement of a list is the one `sortStrings` returns. -/
theorem sortStrings_unique {l s : List GoString} (hp : s.Perm l)
    (hs : s.Sorted (· ≤ ·)) : s = sortStrings l :=
  List.eq_of_perm_of_sorted (hp.trans (sortStrings_perm l).symm) hs (sortStrings_sorted l)

theorem sortStrings_congr {l₁ l₂ : List GoString} (h : l₁.Perm l₂) :
    sortStrings l₁ = sortStrings l₂ :=
  List.eq_of_perm_of_sorted
    (((sortStrings_perm l₁).trans h).trans (sortStrings_perm l₂).symm)
    (sortStrings_sorted l₁) (sortStrings_sorted l₂)

theorem mem_sigKeys {data : Values} {k : GoString} :
    k ∈ sigKeys data ↔ k ∈ Values.keys data ∧ k ≠ apiSigKey := by
  rw [sigKeys_eq_filter]
  simp [List.mem_filter]

theorem index_of_mem {v : Values} (hwf : Values.WF v) {e : GoString × List GoString}
    (he : e ∈ v) : Values.index v e.1 = e.2 := by
  induction v with
  | nil => cases he
  | cons a as ih =>
    unfold Values.WF Values.keys at hwf
    rw [List.map_cons, List.nodup_cons] at hwf
    rcases List.mem_cons.1 he with h | h
    · subst h
      simp [Values.index, List.find?_cons]
    · have hne : a.1 ≠ e.1 := by
        intro heq
        exact hwf.1 (heq ▸ List.mem_map_of_mem Prod.fst h)
      have := ih hwf.2 h
      simpa [Values.index, List.find?_cons, hne] using this

theorem index_of_not_mem {v : Values} {k : GoString} (hk : k ∉ Values.keys v) :
    Values.index v k = [] := by
  have : v.find? (fun e => decide (e.1 = k)) = none := by
    rw [List.find?_eq_none]
    intro e he
    simp only [decide_eq_true_eq]
    intro heq
    exact hk (heq ▸ List.mem_map_of_mem Prod.fst he)
  simp [Values.index, this]

theorem index_perm {v₁ v₂ : Values} (hwf : Values.WF v₁) (hp : v₁.Perm v₂) (k : GoString) :
    Values.index v₁ k = Values.index v₂ k := by
  have hwf₂ : Values.WF v₂ := (List.Perm.nodup_iff (hp.map Prod.fst)).1 hwf
  by_cases hk : k ∈ Values.keys v₁
  · obtain ⟨e, he, rfl⟩ := List.mem_map.1 hk
    rw [index_of_mem hwf he, index_of_mem hwf₂ (hp.subset he)]
  · have hk₂ : k ∉ Values.keys v₂ := fun h => hk ((hp.map Prod.fst).symm.subset h)
    rw [index_of_not_mem hk, index_of_not_mem hk₂]

/-- The result of `makeSigMsg` depends only on the set of kept keys and on the first value
of each of them. -/
theorem makeSigMsg_congr {d₁ d₂ : Values} (hk : (sigKeys d₁).Perm (sigKeys d₂))
    (hg : ∀ k ∈ sigKeys d₁, Values.Get d₁ k = Values.Get d₂ k) :
    makeSigMsg d₁ = makeSigMsg d₂ := by
  rw [makeSigMsg_eq, makeSigMsg_eq, ← sortStrings_congr hk]
  cases h : sortStrings (sigKeys d₁) with
  | nil => rfl
  | cons k ks =>
    simp only []
    congr 2
    apply List.map_congr_left
    intro x hx
    have hx' : x ∈ sigKeys d₁ := (sortStrings_perm _).subset (h ▸ hx)
    simp [renderKey, hg x hx']

theorem Get_eq_headD (v : Values) (k : GoString) :
    Values.Get v k = (Values.index v k).headD [] := by
  unfold Values.Get
  cases Values.index v k <;> rfl

theorem sigKeys_nodup {data : Values} (hwf : Values.WF data) : (sigKeys data).Nodup := by
  rw [sigKeys_eq_filter]
  exact List.Nodup.filter _ hwf

theorem sigKeys_ne_nil_iff (data : Values) :
    sigKeys data ≠ [] ↔ ∃ k ∈ Values.keys data, k ≠ apiSigKey := by
  constructor
  · intro h
    obtain ⟨k, hk⟩ := List.exists_mem_of_ne_nil _ h
    exact ⟨k, (mem_sigKeys.1 hk).1, (mem_sigKeys.1 hk).2⟩
  · rintro ⟨k, hk, hne⟩ h
    have : k ∈ sigKeys data := mem_sigKeys.2 ⟨hk, hne⟩
    rw [h] at this
    cases this

theorem keys_assign (v : Values) (a : GoString) (vs : List GoString) :
    Values.keys (Values.assign v a vs)
      = if a ∈ Values.keys v then Values.keys v else Values.keys v ++ [a] := by
  unfold Values.assign
  by_cases h : a ∈ Values.keys v
  · simp only [h, if_true]
    unfold Values.keys
    rw [List.map_map]
    apply List.map_congr_left
    intro e _
    by_cases he : e.1 = a <;> simp [he]
  · rw [if_neg h, if_neg h]
    simp [Values.keys]

theorem mem_keys_cons (e : GoString × List GoString) (v : Values) (k : GoString) :
    k ∈ Values.keys (e :: v) ↔ k = e.1 ∨ k ∈ Values.keys v := by
  simp [Values.keys]

theorem index_cons (e : GoString × List GoString) (v : Values) (k : GoString) :
    Values.index (e :: v) k = if e.1 = k then e.2 else Values.index v k := by
  by_cases h : e.1 = k <;> simp [Values.index, List.find?_cons, h]

theorem index_map_replace (v : Values) (a : GoString) (vs : List GoString) (k : GoString) :
    Values.index (v.map (fun e => if e.1 = a then (a, vs) else e)) k
      = if k = a ∧ a ∈ Values.keys v then vs else Values.index v k := by
  induction v with
  | nil => simp [Values.index, Values.keys]
  | cons e es ih =>
    rw [List.map_cons, index_cons, index_cons, ih]
    by_cases hea : e.1 = a
    · by_cases hka : k = a
      · simp [hea, hka, mem_keys_cons]
      · have : ¬ a = k := fun h => hka h.symm
        simp [hea, hka, this, mem_keys_cons]
    · by_cases hka : k = a
      · subst hka
        have : ¬ k = e.1 := fun h => hea h.symm
        simp [hea, this, mem_keys_cons]
      · simp [hea, hka, mem_keys_cons]

theorem index_append_singleton (v : Values) (a : GoString) (vs : List GoString)
    (k : GoString) :
    Values.index (v ++ [(a, vs)]) k
      = if k ∈ Values.keys v then Values.index v k else if a = k then vs else [] := by
  induction v with
  | nil =>
    rw [List.nil_append, index_cons]
    simp [Values.keys, Values.index]
  | cons e es ih =>
    rw [List.cons_append, index_cons, index_cons, ih]
    by_cases hek : e.1 = k
    · simp [hek, mem_keys_cons]
    · have : ¬ k = e.1 := fun h => hek h.symm
      simp [hek, this, mem_keys_cons]

theorem index_assign (v : Values) (a : GoString) (vs : List GoString) (k : GoString) :
    Values.index (Values.assign v a vs) k = if k = a then vs else Values.index v k := by
  unfold Values.assign
  by_cases h : a ∈ Values.keys v
  · simp only [h, if_true, index_map_replace, and_true]
  · simp only [h, if_false, index_append_singleton]
    by_cases hka : k = a
    · subst hka
      simp [h]
    · have : ¬ a = k := fun h => hka h.symm
      by_cases hk : k ∈ Values.keys v
      · simp [hk, hka]
      · simp [hk, hka, this, index_of_not_mem hk]

theorem index_Del (v : Values) (a k : GoString) :
    Values.index (Values.Del v a) k = if k = a then [] else Values.index v k := by
  induction v with
  | nil => simp [Values.Del, Values.index]
  | cons e es ih =>
    unfold Values.Del at ih ⊢
    by_cases hea : e.1 = a
    · rw [List.filter_cons_of_neg (by simpa using hea), ih, index_cons]
      by_cases hka : k = a
      · simp [hka]
      · have : ¬ e.1 = k := fun h => hka (h ▸ hea)
        simp [hka, this]
    · rw [List.filter_cons_of_pos (by simpa using hea), index_cons, ih, index_cons]
      by_cases hka : k = a
      · have : ¬ e.1 = k := fun h => hea (h.trans hka)
        simp [hka, this]
        intro h; exact absurd h hea
      · simp [hka]

theorem Get_congr {v₁ v₂ : Values} {k : GoString}
    (h : Values.index v₁ k = Values.index v₂ k) : Values.Get v₁ k = Values.Get v₂ k := by
  rw [Get_eq_headD, Get_eq_headD, h]

theorem sigKeys_assign_apiSig (v : Values) (vs : List GoString) :
    sigKeys (Values.assign v apiSigKey vs) = sigKeys v := by
  rw [sigKeys_eq_filter, sigKeys_eq_filter, keys_assign]
  by_cases h : apiSigKey ∈ Values.keys v
  · simp [h]
  · simp [h, List.filter_append]

theorem sigKeys_Del_apiSig (v : Values) : sigKeys (Values.Del v apiSigKey) = sigKeys v := by
  rw [sigKeys_eq_filter, sigKeys_eq_filter]
  unfold Values.Del Values.keys
  rw [List.filter_map, List.filter_map, List.filter_filter]
  congr 1
  apply List.filter_congr
  intro e _
  simp

theorem makeSigMsg_assign_apiSig (v : Values) (vs : List GoString) :
    makeSigMsg (Values.assign v apiSigKey vs) = makeSigMsg v := by
  apply makeSigMsg_congr
  · rw [sigKeys_assign_apiSig]
  · intro k hk
    rw [sigKeys_assign_apiSig] at hk
    apply Get_congr
    rw [index_assign, if_neg (mem_sigKeys.1 hk).2]

theorem makeSigMsg_Del_apiSig (v : Values) :
    makeSigMsg (Values.Del v apiSigKey) = makeSigMsg v := by
  apply makeSigMsg_congr
  · rw [sigKeys_Del_apiSig]
  · intro k hk
    rw [sigKeys_Del_apiSig] at hk
    apply Get_congr
    rw [index_Del, if_neg (mem_sigKeys.1 hk).2]

theorem flatMap_congr_mem {α β : Type} {l : List α} {f g : α → List β}
    (h : ∀ x ∈ l, f x = g x) : l.flatMap f = l.flatMap g := by
  induction l with
  | nil => rfl
  | cons a as ih =>
    rw [List.flatMap_cons, List.flatMap_cons, h a (List.mem_cons_self _ _),
      ih (fun x hx => h x (List.mem_cons_of_mem _ hx))]

/-- Two renderings of a duplicate-free key list that agree except at one key, where they
differ, produce different strings. -/
theorem flatMap_ne_of_differ_at {ks : List GoString} (hnd : ks.Nodup) {k : GoString}
    (hk : k ∈ ks) {f g : GoString → GoString} (hfg : ∀ x ∈ ks, x ≠ k → f x = g x)
    (hne : f k ≠ g k) : ks.flatMap f ≠ ks.flatMap g := by
  obtain ⟨l₁, l₂, rfl⟩ := List.append_of_mem hk
  have hnd' := List.nodup_append.1 hnd
  have hk₁ : k ∉ l₁ := fun h => hnd'.2.2 h (List.mem_cons_self _ _)
  have hk₂ : k ∉ l₂ := (List.nodup_cons.1 hnd'.2.1).1
  have h₁ : l₁.flatMap f = l₁.flatMap g :=
    flatMap_congr_mem (fun x hx => hfg x (List.mem_append_left _ hx)
      (fun h => hk₁ (h ▸ hx)))
  have h₂ : l₂.flatMap f = l₂.flatMap g :=
    flatMap_congr_mem (fun x hx => hfg x (List.mem_append_right _ (List.mem_cons_of_mem _ hx))
      (fun h => hk₂ (h ▸ hx)))
  intro heq
  rw [List.flatMap_append, List.flatMap_append, List.flatMap_cons, List.flatMap_cons,
    h₁, h₂] at heq
  exact hne (List.append_cancel_right (List.append_cancel_left heq))

theorem Get_Set_self (m : Values) (k v : GoString) : Values.Get (Values.Set m k v) k = v := by
  rw [Get_eq_headD, Values.Set, index_assign]
  simp

theorem Get_Set_ne (m : Values) (k v x : GoString) (h : x ≠ k) :
    Values.Get (Values.Set m k v) x = Values.Get m x := by
  apply Get_congr
  rw [Values.Set, index_assign, if_neg h]

/-- Claim C1. For every well-formed parameter mapping that has at least one key other than
`api_sig`, `makeSigMsg` returns the entries whose key is not `api_sig`, arranged by
strictly ascending key in the byte-wise lexicographic order `goStringLess`, each rendered
as key, `=`, first value of the key (empty when the key has no value), the renderings
joined by `&` with no leading or trailing separator; and on `api_ts: 1000,
api_user: alice, payload: x` it returns `api_ts=1000&api_user=alice&payload=x`. -/
theorem makeSigMsg_sorted_join (data : Values) (hwf : Values.WF data)
    (hne : ∃ k ∈ Values.keys data, k ≠ apiSigKey) :
    (∃ es : List (GoString × List GoString),
      es.Perm (data.filter (fun e => decide (e.1 ≠ apiSigKey))) ∧
      (es.map Prod.fst).Sorted (fun a b => goStringLess a b = true) ∧
      makeSigMsg data =
        some ((lit "&").intercalate (es.map (fun e => e.1 ++ lit "=" ++ e.2.headD [])))) ∧
    makeSigMsg [(lit "payload", [lit "x"]), (lit "api_user", [lit "alice"]),
        (lit "api_ts", [lit "1000"])]
      = some (lit "api_ts=1000&api_user=alice&payload=x") := by
  refine ⟨?_, by decide⟩
  refine ⟨(sortStrings (sigKeys data)).map (fun k => (k, Values.index data k)), ?_, ?_, ?_⟩
  · have h1 : (sortStrings (sigKeys data)).Perm
        ((data.filter (fun e => decide (e.1 ≠ apiSigKey))).map Prod.fst) := by
      have hk : sigKeys data
          = (data.filter (fun e => decide (e.1 ≠ apiSigKey))).map Prod.fst := by
        rw [sigKeys_eq_filter, Values.keys, List.filter_map]
        rfl
      have := sortStrings_perm (sigKeys data)
      rwa [hk] at this ⊢
    have h2 := h1.map (fun k => (k, Values.index data k))
    rw [List.map_map] at h2
    have h3 : (data.filter (fun e => decide (e.1 ≠ apiSigKey))).map
        ((fun k => (k, Values.index data k)) ∘ Prod.fst)
        = data.filter (fun e => decide (e.1 ≠ apiSigKey)) := by
      conv_rhs => rw [← List.map_id (data.filter (fun e => decide (e.1 ≠ apiSigKey)))]
      apply List.map_congr_left
      intro e he
      have hmem : e ∈ data := (List.mem_filter.1 he).1
      simp [index_of_mem hwf hmem]
    rw [h3] at h2
    exact h2
  · have hmap : ((sortStrings (sigKeys data)).map (fun k => (k, Values.index data k))).map
        Prod.fst = sortStrings (sigKeys data) := by
      rw [List.map_map]
      conv_rhs => rw [← List.map_id (sortStrings (sigKeys data))]
      apply List.map_congr_left
      intro k _
      rfl
    rw [hmap]
    have hlt : (sortStrings (sigKeys data)).Sorted (· < ·) :=
      (sortStrings_sorted _).lt_of_le
        ((List.Perm.nodup_iff (sortStrings_perm _)).2 (sigKeys_nodup hwf))
    exact List.Pairwise.imp (fun h => (goStringLess_iff _ _).2 h) hlt
  · rw [makeSigMsg_eq]
    have hnil : sortStrings (sigKeys data) ≠ [] := fun h =>
      (sigKeys_ne_nil_iff data).2 hne ((sortStrings_eq_nil_iff _).1 h)
    cases h : sortStrings (sigKeys data) with
    | nil => exact absurd h hnil
    | cons k ks =>
      simp only []
      congr 2
      rw [List.map_map]
      apply List.map_congr_left
      intro x _
      simp [renderKey, Get_eq_headD]

/-- Instance of claim C1 on a mapping of two entries, one of them the signature field. -/
theorem makeSigMsg_sorted_join_witness :
    Values.WF [(lit "api_sig", [lit "00"]), (lit "b", [lit "2", lit "3"])] ∧
    (∃ es : List (GoString × List GoString),
      es.Perm ([(lit "api_sig", [lit "00"]), (lit "b", [lit "2", lit "3"])].filter
        (fun e => decide (e.1 ≠ apiSigKey))) ∧
      (es.map Prod.fst).Sorted (fun a b => goStringLess a b = true) ∧
      makeSigMsg [(lit "api_sig", [lit "00"]), (lit "b", [lit "2", lit "3"])] =
        some ((lit "&").intercalate (es.map (fun e => e.1 ++ lit "=" ++ e.2.headD [])))) :=
  ⟨by decide,
    (makeSigMsg_sorted_join [(lit "api_sig", [lit "00"]), (lit "b", [lit "2", lit "3"])]
      (by decide) ⟨lit "b", by decide, by decide⟩).1⟩

/-- Claim C5. `makeSigMsg` applied to the empty mapping fails: the string built is empty
and the final slice of an empty string is out of range; and in general `makeSigMsg`
returns a string if and only if the mapping has at least one key other than `api_sig`. -/
theorem makeSigMsg_returns_iff :
    sigBody [] (sortStrings (sigKeys [])) = [] ∧
    trimLast [] = none ∧
    makeSigMsg [] = none ∧
    ∀ data : Values,
      (∃ msg, makeSigMsg data = some msg) ↔ ∃ k ∈ Values.keys data, k ≠ apiSigKey := by
  refine ⟨by decide, by decide, by decide, ?_⟩
  intro data
  rw [← sigKeys_ne_nil_iff, makeSigMsg_eq]
  cases h : sortStrings (sigKeys data) with
  | nil =>
    have := (sortStrings_eq_nil_iff _).1 h
    simp [this]
  | cons k ks =>
    have : sigKeys data ≠ [] := fun h0 => by
      rw [(sortStrings_eq_nil_iff _).2 h0] at h
      cases h
    simp [this]

/-- Claim C2. Canonicalization is order-independent: two well-formed mappings holding the
same entries in different orders get the same canonical string from `makeSigMsg`, and so
the same signature from `makeSig` under the same secret. -/
theorem makeSigMsg_order_independent (d₁ d₂ : Values) (hwf : Values.WF d₁)
    (hp : d₁.Perm d₂) (hmacSha256 : List Byte → List Byte → List Byte)
    (secret : List Byte) :
    makeSigMsg d₁ = makeSigMsg d₂ ∧
    (makeSigMsg d₁).map (makeSig hmacSha256 secret)
      = (makeSigMsg d₂).map (makeSig hmacSha256 secret) := by
  have h : makeSigMsg d₁ = makeSigMsg d₂ := by
    apply makeSigMsg_congr
    · rw [sigKeys_eq_filter, sigKeys_eq_filter]
      exact (hp.map Prod.fst).filter _
    · intro k _
      exact Get_congr (index_perm hwf hp k)
  exact ⟨h, by rw [h]⟩

/-- Instance of claim C2 on the three request fields listed in two orders. -/
theorem makeSigMsg_order_independent_witness :
    Values.WF [(lit "payload", [lit "x"]), (lit "api_ts", [lit "1000"]),
      (lit "api_user", [lit "alice"])] ∧
    makeSigMsg [(lit "payload", [lit "x"]), (lit "api_ts", [lit "1000"]),
      (lit "api_user", [lit "alice"])]
      = makeSigMsg [(lit "api_ts", [lit "1000"]), (lit "payload", [lit "x"]),
      (lit "api_user", [lit "alice"])] :=
  ⟨by decide,
    (makeSigMsg_order_independent
      [(lit "payload", [lit "x"]), (lit "api_ts", [lit "1000"]),
        (lit "api_user", [lit "alice"])]
      [(lit "api_ts", [lit "1000"]), (lit "payload", [lit "x"]),
        (lit "api_user", [lit "alice"])]
      (by decide) (List.Perm.swap _ _ _) (fun key msg => key ++ msg) (lit "s3cret")).1⟩

/-- Claim C3. Canonicalization excludes the signature field: for a mapping with at least
one key other than `api_sig`, setting the entry `api_sig` to a value (replacing it, or
adding it with `Set` or `Add`) gives the same canonical string as deleting the entry. -/
theorem makeSigMsg_ignores_apiSig (m : Values) (s : GoString)
    (hne : ∃ k ∈ Values.keys m, k ≠ apiSigKey) :
    makeSigMsg (Values.Set m apiSigKey s) = makeSigMsg (Values.Del m apiSigKey) ∧
    makeSigMsg (Values.Add m apiSigKey s) = makeSigMsg (Values.Del m apiSigKey) ∧
    ∃ msg, makeSigMsg (Values.Del m apiSigKey) = some msg := by
  refine ⟨?_, ?_, ?_⟩
  · rw [Values.Set, makeSigMsg_assign_apiSig, makeSigMsg_Del_apiSig]
  · rw [Values.Add, makeSigMsg_assign_apiSig, makeSigMsg_Del_apiSig]
  · rw [makeSigMsg_Del_apiSig, makeSigMsg_eq]
    cases h : sortStrings (sigKeys m) with
    | nil =>
      exact absurd ((sortStrings_eq_nil_iff _).1 h) ((sigKeys_ne_nil_iff m).2 hne)
    | cons k ks => exact ⟨_, rfl⟩

/-- Instance of claim C3 on a signed mapping of two fields. -/
theorem makeSigMsg_ignores_apiSig_witness :
    makeSigMsg (Values.Set [(lit "b", [lit "2"]), (lit "api_sig", [lit "00"])]
        apiSigKey (lit "ff"))
      = makeSigMsg (Values.Del [(lit "b", [lit "2"]), (lit "api_sig", [lit "00"])]
        apiSigKey) :=
  (makeSigMsg_ignores_apiSig [(lit "b", [lit "2"]), (lit "api_sig", [lit "00"])]
    (lit "ff") ⟨lit "b", by decide, by decide⟩).1

/-- Claim C9. Changing a single parameter value changes what is signed: in a well-formed
mapping, setting a present key other than `api_sig` to a value different from its current
(first) value makes `makeSigMsg` return a different string; both calls return a string.
Single-valuedness of the mapping is not needed. -/
theorem makeSigMsg_value_sensitive (m : Values) (k v' : GoString) (hwf : Values.WF m)
    (hk : k ∈ Values.keys m) (hks : k ≠ apiSigKey) (hv : v' ≠ Values.Get m k) :
    ∃ a b, makeSigMsg (Values.Set m k v') = some a ∧ makeSigMsg m = some b ∧ a ≠ b := by
  have hkeys : sigKeys (Values.Set m k v') = sigKeys m := by
    rw [sigKeys_eq_filter, sigKeys_eq_filter, Values.Set, keys_assign, if_pos hk]
  have hmem : k ∈ sortStrings (sigKeys m) :=
    (sortStrings_perm _).symm.subset (mem_sigKeys.2 ⟨hk, hks⟩)
  have hnd : (sortStrings (sigKeys m)).Nodup :=
    (List.Perm.nodup_iff (sortStrings_perm _)).2 (sigKeys_nodup hwf)
  have hdiff : (sortStrings (sigKeys m)).flatMap
        (fun x => renderKey (Values.Set m k v') x ++ lit "&")
      ≠ (sortStrings (sigKeys m)).flatMap (fun x => renderKey m x ++ lit "&") :=
    flatMap_ne_of_differ_at hnd hmem
    (fun x _ hx => by simp only [renderKey, Get_Set_ne m k v' x hx])
    (by
      simp only [renderKey, Get_Set_self]
      intro h
      exact hv (List.append_cancel_left (List.append_cancel_right h)))
  rw [makeSigMsg_eq, makeSigMsg_eq, hkeys]
  cases h : sortStrings (sigKeys m) with
  | nil => rw [h] at hmem; cases hmem
  | cons x xs =>
    refine ⟨_, _, rfl, rfl, ?_⟩
    intro heq
    apply hdiff
    rw [h, flatMap_sep_eq_intercalate, flatMap_sep_eq_intercalate, heq]

/-- Instance of claim C9: the payload of a request changed from `x` to `y`. -/
theorem makeSigMsg_value_sensitive_witness :
    ∃ a b,
      makeSigMsg (Values.Set [(lit "api_ts", [lit "1000"]), (lit "payload", [lit "x"])]
        (lit "payload") (lit "y")) = some a ∧
      makeSigMsg [(lit "api_ts", [lit "1000"]), (lit "payload", [lit "x"])] = some b ∧
      a ≠ b :=
  makeSigMsg_value_sensitive [(lit "api_ts", [lit "1000"]), (lit "payload", [lit "x"])]
    (lit "payload") (lit "y") (by decide) (by decide) (by decide) (by decide)

/-- Claim C10. Canonicalization is not injective: the distinct well-formed mappings
`a: 1&b=2` and `a: 1, b: 2`, neither containing `api_sig`, both canonicalize to
`a=1&b=2`, and so get the same signature under every secret. -/
theorem makeSigMsg_not_injective :
    ¬ List.Perm [(lit "a", [lit "1&b=2"])] [(lit "a", [lit "1"]), (lit "b", [lit "2"])] ∧
    Values.WF [(lit "a", [lit "1&b=2"])] ∧
    Values.WF [(lit "a", [lit "1"]), (lit "b", [lit "2"])] ∧
    apiSigKey ∉ Values.keys [(lit "a", [lit "1&b=2"])] ∧
    apiSigKey ∉ Values.keys [(lit "a", [lit "1"]), (lit "b", [lit "2"])] ∧
    makeSigMsg [(lit "a", [lit "1&b=2"])] = some (lit "a=1&b=2") ∧
    makeSigMsg [(lit "a", [lit "1"]), (lit "b", [lit "2"])] = some (lit "a=1&b=2") ∧
    ∀ (hmacSha256 : List Byte → List Byte → List Byte) (secret : List Byte),
      (makeSigMsg [(lit "a", [lit "1&b=2"])]).map (makeSig hmacSha256 secret)
        = (makeSigMsg [(lit "a", [lit "1"]), (lit "b", [lit "2"])]).map
          (makeSig hmacSha256 secret) := by
  have h₁ : makeSigMsg [(lit "a", [lit "1&b=2"])] = some (lit "a=1&b=2") := by decide
  have h₂ : makeSigMsg [(lit "a", [lit "1"]), (lit "b", [lit "2"])]
      = some (lit "a=1&b=2") := by decide
  refine ⟨fun h => ?_, by decide, by decide, by decide, by decide, h₁, h₂, ?_⟩
  · have := h.length_eq
    simp at this
  · intro hmacSha256 secret
    rw [h₁, h₂]

/-! ## The request form and the normalised result -/

theorem lit_apiSig : lit "api_sig" = apiSigKey := rfl

/-- The canonical string of the three request fields, in whatever order they are listed
first. -/
theorem makeSigMsg_request (ts user payload : GoString) :
    makeSigMsg [(lit "api_ts", [ts]), (lit "api_user", [user]), (lit "payload", [payload])]
      = some (lit "api_ts=" ++ ts ++ lit "&api_user=" ++ user ++ lit "&payload=" ++ payload) := by
  have hk : sortStrings (sigKeys
      [(lit "api_ts", [ts]), (lit "api_user", [user]), (lit "payload", [payload])])
      = [lit "api_ts", lit "api_user", lit "payload"] := by
    have : sigKeys [(lit "api_ts", [ts]), (lit "api_user", [user]), (lit "payload", [payload])]
        = [lit "api_ts", lit "api_user", lit "payload"] := by
      rw [sigKeys_eq_filter]
      show List.filter _ [lit "api_ts", lit "api_user", lit "payload"] = _
      decide
    rw [this]
    decide
  have n₁ : ¬ lit "api_ts" = lit "api_user" := by decide
  have n₂ : ¬ lit "api_ts" = lit "payload" := by decide
  have n₃ : ¬ lit "api_user" = lit "payload" := by decide
  have h₁ : Values.Get
      [(lit "api_ts", [ts]), (lit "api_user", [user]), (lit "payload", [payload])]
      (lit "api_ts") = ts := by
    rw [Get_eq_headD, index_cons, if_pos rfl]; rfl
  have h₂ : Values.Get
      [(lit "api_ts", [ts]), (lit "api_user", [user]), (lit "payload", [payload])]
      (lit "api_user") = user := by
    rw [Get_eq_headD, index_cons, if_neg n₁, index_cons, if_pos rfl]; rfl
  have h₃ : Values.Get
      [(lit "api_ts", [ts]), (lit "api_user", [user]), (lit "payload", [payload])]
      (lit "payload") = payload := by
    rw [Get_eq_headD, index_cons, if_neg n₂, index_cons, if_neg n₃,
      index_cons, if_pos rfl]; rfl
  have e₁ : lit "api_ts=" = lit "api_ts" ++ lit "=" := by decide
  have e₂ : lit "&api_user=" = lit "&" ++ (lit "api_user" ++ lit "=") := by decide
  have e₃ : lit "&payload=" = lit "&" ++ (lit "payload" ++ lit "=") := by decide
  rw [makeSigMsg_eq, hk]
  simp only [List.map_cons, List.map_nil, renderKey, h₁, h₂, h₃, e₁, e₂, e₃]
  simp [List.intercalate, List.intersperse, List.append_assoc]

/-- The form built by the first part of `CallRestApi`, and the call in terms of it. -/
theorem signedForm_spec {J : Type} (c : StratumClient) (env : Env J)
    (mod action : GoString) (payload : List Byte) (decode : Bool)
    (horder : ∀ v, (env.rangeOrder v).Perm v) :
    ∃ form msg,
      signedForm c env payload = some form ∧
      CallRestApi c env mod action payload decode
        = some (normalize env decode
            (env.postForm c.netTransportTimeout c.netClientTimeout
              (concat [c.endpoint, mod, lit "/", action]) form)) ∧
      form.Perm [(lit "api_ts", [formatInt10 env.now]), (lit "api_user", [c.apiKey]),
        (lit "payload", [payload]),
        (lit "api_sig", [makeSig env.hmacSha256 c.apiKeySecret msg])] ∧
      makeSigMsg form = some msg ∧
      msg = lit "api_ts=" ++ formatInt10 env.now ++ lit "&api_user=" ++ c.apiKey
        ++ lit "&payload=" ++ payload ∧
      Values.Get form (lit "api_sig") = makeSig env.hmacSha256 c.apiKeySecret msg := by
  have hp := horder [(lit "api_ts", [formatInt10 env.now]), (lit "api_user", [c.apiKey]),
    (lit "payload", [payload])]
  have hwf₀ : Values.WF [(lit "api_ts", [formatInt10 env.now]),
      (lit "api_user", [c.apiKey]), (lit "payload", [payload])] := by
    show List.Nodup [lit "api_ts", lit "api_user", lit "payload"]
    decide
  have hwf : Values.WF (env.rangeOrder [(lit "api_ts", [formatInt10 env.now]),
      (lit "api_user", [c.apiKey]), (lit "payload", [payload])]) :=
    (List.Perm.nodup_iff (hp.map Prod.fst)).2 hwf₀
  have hmsg : makeSigMsg (env.rangeOrder [(lit "api_ts", [formatInt10 env.now]),
      (lit "api_user", [c.apiKey]), (lit "payload", [payload])])
      = some (lit "api_ts=" ++ formatInt10 env.now ++ lit "&api_user=" ++ c.apiKey
        ++ lit "&payload=" ++ payload) := by
    rw [← makeSigMsg_request]
    apply makeSigMsg_congr
    · rw [sigKeys_eq_filter, sigKeys_eq_filter]
      exact (hp.map Prod.fst).filter _
    · intro k _
      exact Get_congr (index_perm hwf hp k)
  have hnot : apiSigKey ∉ Values.keys (env.rangeOrder [(lit "api_ts", [formatInt10 env.now]),
      (lit "api_user", [c.apiKey]), (lit "payload", [payload])]) := by
    intro h
    have h' := (hp.map Prod.fst).subset h
    revert h'
    show ¬ apiSigKey ∈ [lit "api_ts", lit "api_user", lit "payload"]
    decide
  have hadd : ∀ sig, Values.Add (env.rangeOrder [(lit "api_ts", [formatInt10 env.now]),
      (lit "api_user", [c.apiKey]), (lit "payload", [payload])]) (lit "api_sig") sig
      = env.rangeOrder [(lit "api_ts", [formatInt10 env.now]),
          (lit "api_user", [c.apiKey]), (lit "payload", [payload])]
        ++ [(lit "api_sig", [sig])] := by
    intro sig
    rw [lit_apiSig, Values.Add, Values.assign, if_neg hnot, index_of_not_mem hnot]
    rfl
  refine ⟨Values.Add (env.rangeOrder [(lit "api_ts", [formatInt10 env.now]),
      (lit "api_user", [c.apiKey]), (lit "payload", [payload])]) (lit "api_sig")
      (makeSig env.hmacSha256 c.apiKeySecret
        (lit "api_ts=" ++ formatInt10 env.now ++ lit "&api_user=" ++ c.apiKey
          ++ lit "&payload=" ++ payload)),
    lit "api_ts=" ++ formatInt10 env.now ++ lit "&api_user=" ++ c.apiKey
      ++ lit "&payload=" ++ payload, ?_, ?_, ?_, ?_, rfl, ?_⟩
  · simp only [signedForm, hmsg]
  · simp only [CallRestApi, signedForm, hmsg]
  · rw [hadd]
    exact List.Perm.append_right _ hp
  · rw [lit_apiSig, Values.Add, makeSigMsg_assign_apiSig, hmsg]
  · rw [Get_eq_headD, lit_apiSig, Values.Add, index_assign, if_pos rfl,
      index_of_not_mem hnot]
    rfl

/-- Claim C4. Round trip of the request signature: `CallRestApi` does not panic and posts a
form that consists of exactly the fields `api_ts` (the decimal timestamp), `api_user` (the
user of the client), `payload` and `api_sig`, each with one value; `makeSigMsg`
recomputed over the whole posted form, which ignores `api_sig`, is
`api_ts=<t>&api_user=<user>&payload=<p>`, and the posted `api_sig` is `makeSig` of the
secret and that string. -/
theorem CallRestApi_signature_roundtrip {J : Type} (c : StratumClient) (env : Env J)
    (mod action : GoString) (payload : List Byte) (decode : Bool)
    (horder : ∀ v, (env.rangeOrder v).Perm v) :
    ∃ form msg,
      signedForm c env payload = some form ∧
      CallRestApi c env mod action payload decode
        = some (normalize env decode
            (env.postForm c.netTransportTimeout c.netClientTimeout
              (concat [c.endpoint, mod, lit "/", action]) form)) ∧
      form.Perm [(lit "api_ts", [formatInt10 env.now]), (lit "api_user", [c.apiKey]),
        (lit "payload", [payload]),
        (lit "api_sig", [makeSig env.hmacSha256 c.apiKeySecret msg])] ∧
      makeSigMsg form = some msg ∧
      msg = lit "api_ts=" ++ formatInt10 env.now ++ lit "&api_user=" ++ c.apiKey
        ++ lit "&payload=" ++ payload ∧
      Values.Get form (lit "api_sig") = makeSig env.hmacSha256 c.apiKeySecret msg :=
  signedForm_spec c env mod action payload decode horder

/-- Instance of claim C4 at the sample client and an environment that visits maps in
reverse order. -/
theorem CallRestApi_signature_roundtrip_witness :
    (∀ v, (refusingEnv.rangeOrder v).Perm v) ∧
    ∃ form msg,
      signedForm sampleClient refusingEnv (lit "x") = some form ∧
      CallRestApi sampleClient refusingEnv (lit "mod") (lit "act") (lit "x") true
        = some (normalize refusingEnv true
            (refusingEnv.postForm sampleClient.netTransportTimeout
              sampleClient.netClientTimeout
              (concat [sampleClient.endpoint, lit "mod", lit "/", lit "act"]) form)) ∧
      form.Perm [(lit "api_ts", [formatInt10 refusingEnv.now]),
        (lit "api_user", [sampleClient.apiKey]), (lit "payload", [lit "x"]),
        (lit "api_sig", [makeSig refusingEnv.hmacSha256 sampleClient.apiKeySecret msg])] ∧
      makeSigMsg form = some msg ∧
      msg = lit "api_ts=" ++ formatInt10 refusingEnv.now ++ lit "&api_user="
        ++ sampleClient.apiKey ++ lit "&payload=" ++ lit "x" ∧
      Values.Get form (lit "api_sig")
        = makeSig refusingEnv.hmacSha256 sampleClient.apiKeySecret msg :=
  ⟨fun v => List.reverse_perm v,
    CallRestApi_signature_roundtrip sampleClient refusingEnv (lit "mod") (lit "act")
      (lit "x") true (fun v => List.reverse_perm v)⟩

theorem CallRestApi_eq_some {J : Type} {c : StratumClient} {env : Env J}
    {mod action : GoString} {payload : List Byte} {decode : Bool}
    {res : Result J × Option GoError}
    (h : CallRestApi c env mod action payload decode = some res) :
    ∃ form, signedForm c env payload = some form ∧
      res = normalize env decode
        (env.postForm c.netTransportTimeout c.netClientTimeout
          (concat [c.endpoint, mod, lit "/", action]) form) := by
  unfold CallRestApi at h
  cases hf : signedForm c env payload with
  | none => rw [hf] at h; cases h
  | some form =>
    rw [hf] at h
    exact ⟨form, rfl, (Option.some.inj h).symm⟩

theorem CallRestApi_of_form {J : Type} {c : StratumClient} {env : Env J}
    (mod action : GoString) {payload : List Byte} (decode : Bool) {form : Values}
    (h : signedForm c env payload = some form) :
    CallRestApi c env mod action payload decode
      = some (normalize env decode
          (env.postForm c.netTransportTimeout c.netClientTimeout
            (concat [c.endpoint, mod, lit "/", action]) form)) := by
  unfold CallRestApi
  rw [h]

theorem normalize_failed {J : Type} (env : Env J) (decode : Bool) (err : GoError) :
    normalize env decode (PostOutcome.failed err)
      = ({ Status := StatusFAIL, Message := lit "Call failed", Code := [],
           Data := some (Dyn.str err.text), Raw := none }, some err) := rfl

theorem normalize_raw {J : Type} (env : Env J) (body : List Byte) :
    normalize env false (PostOutcome.response body)
      = ({ Status := StatusOK, Message := lit "Request ok", Code := [],
           Data := none, Raw := some body }, none) := rfl

theorem normalize_decode_error {J : Type} (env : Env J) (body : List Byte)
    (answer : Result J) (err : GoError)
    (h : env.decode body (Result.zero J) = (answer, some err)) :
    normalize env true (PostOutcome.response body)
      = ({ answer with Status := StatusFAIL, Message := lit "Decoding json failed",
                       Data := some (Dyn.str err.text) }, some err) := by
  simp only [normalize, if_true, h]

theorem normalize_decode_ok {J : Type} (env : Env J) (body : List Byte)
    (answer : Result J) (h : env.decode body (Result.zero J) = (answer, none)) :
    normalize env true (PostOutcome.response body) = (answer, none) := by
  simp only [normalize, if_true, h]

/-- Claim C6. Whenever `CallRestApi` returns a non-nil error, the returned `Result` has
`Status` `failed` and `Data` equal to the text of the error, and either the transport call
failed, the message is `Call failed` and the transport error is the one returned, or the
transport succeeded, `decode` is true, decoding the body failed, the message is
`Decoding json failed` and the decode error is the one returned.  In the other direction,
the call posts a form, and if the transport call on it fails then, for either value of
`decode`, the call returns the transport error with the result `failed`, `Call failed`,
the error text; and if the transport succeeds, `decode` is true and decoding the body
fails, the call returns the decode error with the decoder's answer overwritten by
`failed`, `Decoding json failed`, the error text. -/
theorem CallRestApi_error_result {J : Type} (c : StratumClient) (env : Env J)
    (mod action : GoString) (payload : List Byte) :
    (∀ (decode : Bool) (r : Result J) (e : GoError),
      CallRestApi c env mod action payload decode = some (r, some e) →
      r.Status = StatusFAIL ∧ r.Data = some (Dyn.str e.text) ∧
      ∃ form, signedForm c env payload = some form ∧
        ((env.postForm c.netTransportTimeout c.netClientTimeout
              (concat [c.endpoint, mod, lit "/", action]) form = PostOutcome.failed e ∧
            r.Message = lit "Call failed") ∨
          (∃ body, env.postForm c.netTransportTimeout c.netClientTimeout
              (concat [c.endpoint, mod, lit "/", action]) form = PostOutcome.response body ∧
            decode = true ∧ (env.decode body (Result.zero J)).2 = some e ∧
            r.Message = lit "Decoding json failed"))) ∧
    ((∀ v, (env.rangeOrder v).Perm v) →
      ∃ form, signedForm c env payload = some form ∧
        (∀ (err : GoError) (decode : Bool),
          env.postForm c.netTransportTimeout c.netClientTimeout
            (concat [c.endpoint, mod, lit "/", action]) form = PostOutcome.failed err →
          CallRestApi c env mod action payload decode
            = some ({ Status := StatusFAIL, Message := lit "Call failed", Code := [],
                      Data := some (Dyn.str err.text), Raw := none }, some err)) ∧
        (∀ (body : List Byte) (answer : Result J) (err : GoError),
          env.postForm c.netTransportTimeout c.netClientTimeout
            (concat [c.endpoint, mod, lit "/", action]) form = PostOutcome.response body →
          env.decode body (Result.zero J) = (answer, some err) →
          CallRestApi c env mod action payload true
            = some ({ answer with Status := StatusFAIL,
                                  Message := lit "Decoding json failed",
                                  Data := some (Dyn.str err.text) }, some err))) := by
  refine ⟨?_, ?_⟩
  · intro decode r e h
    obtain ⟨form, hform, hres⟩ := CallRestApi_eq_some h
    cases hpost : env.postForm c.netTransportTimeout c.netClientTimeout
        (concat [c.endpoint, mod, lit "/", action]) form with
    | failed err =>
      rw [hpost, normalize_failed] at hres
      obtain ⟨hr, he⟩ := Prod.mk.inj hres
      have he' : e = err := Option.some.inj he
      subst he' hr
      exact ⟨rfl, rfl, form, hform, Or.inl ⟨hpost, rfl⟩⟩
    | response body =>
      rw [hpost] at hres
      cases decode with
      | false =>
        rw [normalize_raw] at hres
        cases (Prod.mk.inj hres).2
      | true =>
        cases hdec : env.decode body (Result.zero J) with
        | mk answer oerr =>
          cases oerr with
          | none =>
            rw [normalize_decode_ok env body answer hdec] at hres
            cases (Prod.mk.inj hres).2
          | some err =>
            rw [normalize_decode_error env body answer err hdec] at hres
            obtain ⟨hr, he⟩ := Prod.mk.inj hres
            have he' : e = err := Option.some.inj he
            subst he' hr
            exact ⟨rfl, rfl, form, hform, Or.inr ⟨body, hpost, rfl, by rw [hdec], rfl⟩⟩
  · intro horder
    obtain ⟨form, _, hform, _⟩ := signedForm_spec c env mod action payload false horder
    refine ⟨form, hform, ?_, ?_⟩
    · intro err decode hpost
      rw [CallRestApi_of_form mod action decode hform, hpost, normalize_failed]
    · intro body answer err hpost hdec
      rw [CallRestApi_of_form mod action true hform, hpost,
        normalize_decode_error env body answer err hdec]

/-- Instance of claim C6 on its three parts: a returned error read back, a refused
connection, and a body that the decoder rejects. -/
theorem CallRestApi_error_result_witness :
    (CallRestApi sampleClient refusingEnv (lit "mod") (lit "act") (lit "x") true
        = some (refusedResult, some refusedError) ∧
      refusedResult.Status = StatusFAIL ∧
      refusedResult.Data = some (Dyn.str refusedError.text)) ∧
    (∀ v, (refusingEnv.rangeOrder v).Perm v) ∧
    CallRestApi sampleClient refusingEnv (lit "mod") (lit "act") (lit "x") false
      = some ({ Status := StatusFAIL, Message := lit "Call failed", Code := [],
                Data := some (Dyn.str refusedError.text), Raw := none },
              some refusedError) ∧
    (∀ v, ((answeringEnv (lit "<html>")).rangeOrder v).Perm v) ∧
    CallRestApi sampleClient (answeringEnv (lit "<html>")) (lit "mod") (lit "act")
        (lit "x") true
      = some ({ Status := StatusFAIL, Message := lit "Decoding json failed", Code := [],
                Data := some (Dyn.str (lit "invalid character")), Raw := none },
              some { text := lit "invalid character" }) :=
  ⟨⟨by decide,
      ((CallRestApi_error_result sampleClient refusingEnv (lit "mod") (lit "act")
        (lit "x")).1 true refusedResult refusedError (by decide)).1,
      ((CallRestApi_error_result sampleClient refusingEnv (lit "mod") (lit "act")
        (lit "x")).1 true refusedResult refusedError (by decide)).2.1⟩,
    fun v => List.reverse_perm v,
    ((CallRestApi_error_result sampleClient refusingEnv (lit "mod") (lit "act")
      (lit "x")).2 (fun v => List.reverse_perm v)).elim
      (fun _ h => h.2.1 refusedError false rfl),
    fun v => List.reverse_perm v,
    ((CallRestApi_error_result sampleClient (answeringEnv (lit "<html>")) (lit "mod")
      (lit "act") (lit "x")).2 (fun v => List.reverse_perm v)).elim
      (fun _ h => h.2.2 (lit "<html>") (Result.zero Unit)
        { text := lit "invalid character" } rfl (by decide))⟩

/-- Claim C7. When the transport succeeds with body `b` and `decode` is false,
`CallRestApi` returns a nil error and a `Result` with `Status` `ok`, `Message`
`Request ok`, `Raw` exactly `b`, and `Data` and `Code` unset; the body is not parsed: the
result is the same whatever the decoder is.  The call does not panic. -/
theorem CallRestApi_raw_result {J : Type} (c : StratumClient) (env : Env J)
    (mod action : GoString) (payload : List Byte)
    (horder : ∀ v, (env.rangeOrder v).Perm v) :
    ∃ form, signedForm c env payload = some form ∧
      ∀ b : List Byte,
        env.postForm c.netTransportTimeout c.netClientTimeout
          (concat [c.endpoint, mod, lit "/", action]) form = PostOutcome.response b →
        CallRestApi c env mod action payload false
          = some ({ Status := StatusOK, Message := lit "Request ok", Code := [],
                    Data := none, Raw := some b }, none) ∧
        ∀ dec : List Byte → Result J → Result J × Option GoError,
          CallRestApi c { env with decode := dec } mod action payload false
            = some ({ Status := StatusOK, Message := lit "Request ok", Code := [],
                      Data := none, Raw := some b }, none) := by
  obtain ⟨form, _, hform, _⟩ := signedForm_spec c env mod action payload false horder
  refine ⟨form, hform, fun b hpost => ⟨?_, fun dec => ?_⟩⟩
  · rw [CallRestApi_of_form mod action false hform, hpost, normalize_raw]
  · have hform' : signedForm c { env with decode := dec } payload = some form := hform
    rw [CallRestApi_of_form mod action false hform']
    show some (normalize { env with decode := dec } false
      (env.postForm c.netTransportTimeout c.netClientTimeout
        (concat [c.endpoint, mod, lit "/", action]) form)) = _
    rw [hpost, normalize_raw]

/-- Instance of claim C7: a body that is not JSON, returned raw. -/
theorem CallRestApi_raw_result_witness :
    (∀ v, ((answeringEnv (lit "<html>")).rangeOrder v).Perm v) ∧
    CallRestApi sampleClient (answeringEnv (lit "<html>")) (lit "mod") (lit "act")
        (lit "x") false
      = some ({ Status := lit "ok", Message := lit "Request ok", Code := [],
                Data := none, Raw := some (lit "<html>") }, none) :=
  ⟨fun v => List.reverse_perm v,
    (CallRestApi_raw_result sampleClient (answeringEnv (lit "<html>")) (lit "mod")
      (lit "act") (lit "x") (fun v => List.reverse_perm v)).elim
      (fun _ h => (h.2 (lit "<html>") rfl).1)⟩

/-- Claim C8, refuted as stated. With `decode` false and a refused connection the returned
`Result` has `Data` populated (the error text) and `Raw` not populated; and with `decode`
true, a body that is the empty JSON object and a decoder that assigns no field for it, the
returned `Result` has neither `Data` nor `Raw` populated. -/
theorem CallRestApi_data_raw_counterexample :
    (CallRestApi sampleClient refusingEnv (lit "mod") (lit "act") (lit "x") false
        = some (refusedResult, some refusedError) ∧
      refusedResult.Data = some (Dyn.str (lit "connection refused")) ∧
      refusedResult.Raw = none) ∧
    (CallRestApi sampleClient (answeringEnv (lit "{}")) (lit "mod") (lit "act") (lit "x")
        true = some (Result.zero Unit, none) ∧
      (Result.zero Unit).Data = none ∧ (Result.zero Unit).Raw = none) := by
  decide

/-- Claim C8, amended. Which of `Data` and `Raw` is populated follows the decode flag only
when the transport succeeds and `decode` is false: then `Raw` is the body and `Data` is not
populated.  When the transport fails, for either value of the flag, `Data` is the error
text and `Raw` is not populated.  When the transport succeeds and `decode` is true,
`CallRestApi` never assigns `Raw`, which is as the decoder left it, and `Data` is the
error text if decoding fails and as the decoder left it otherwise. -/
theorem CallRestApi_data_raw {J : Type} (c : StratumClient) (env : Env J)
    (mod action : GoString) (payload : List Byte) (decode : Bool)
    (r : Result J) (e : Option GoError)
    (h : CallRestApi c env mod action payload decode = some (r, e)) :
    ∃ form, signedForm c env payload = some form ∧
      (∀ err, env.postForm c.netTransportTimeout c.netClientTimeout
          (concat [c.endpoint, mod, lit "/", action]) form = PostOutcome.failed err →
        r.Data = some (Dyn.str err.text) ∧ r.Raw = none) ∧
      (∀ body, env.postForm c.netTransportTimeout c.netClientTimeout
          (concat [c.endpoint, mod, lit "/", action]) form = PostOutcome.response body →
        (decode = false → r.Raw = some body ∧ r.Data = none) ∧
        (decode = true →
          r.Raw = (env.decode body (Result.zero J)).1.Raw ∧
          e = (env.decode body (Result.zero J)).2 ∧
          (∀ err, e = some err → r.Data = some (Dyn.str err.text)) ∧
          (e = none → r.Data = (env.decode body (Result.zero J)).1.Data))) := by
  obtain ⟨form, hform, hres⟩ := CallRestApi_eq_some h
  refine ⟨form, hform, ?_, ?_⟩
  · intro err hpost
    rw [hpost, normalize_failed] at hres
    obtain ⟨hr, _⟩ := Prod.mk.inj hres
    subst hr
    exact ⟨rfl, rfl⟩
  · intro body hpost
    rw [hpost] at hres
    refine ⟨fun hd => ?_, fun hd => ?_⟩
    · subst hd
      rw [normalize_raw] at hres
      obtain ⟨hr, _⟩ := Prod.mk.inj hres
      subst hr
      exact ⟨rfl, rfl⟩
    · subst hd
      cases hdec : env.decode body (Result.zero J) with
      | mk answer oerr =>
        cases oerr with
        | none =>
          rw [normalize_decode_ok env body answer hdec] at hres
          obtain ⟨hr, he⟩ := Prod.mk.inj hres
          subst hr he
          exact ⟨rfl, rfl, fun err herr => (by cases herr), fun _ => rfl⟩
        | some err =>
          rw [normalize_decode_error env body answer err hdec] at hres
          obtain ⟨hr, he⟩ := Prod.mk.inj hres
          subst hr he
          refine ⟨rfl, rfl, fun err' herr => ?_, fun hn => (by cases hn)⟩
          cases herr
          rfl

/-- Instance of the amended claim C8: a raw answer. -/
theorem CallRestApi_data_raw_witness :
    CallRestApi sampleClient (answeringEnv (lit "<html>")) (lit "mod") (lit "act")
        (lit "x") false = some (rawResult, none) ∧
    ∃ form, signedForm sampleClient (answeringEnv (lit "<html>")) (lit "x") = some form ∧
      rawResult.Raw = some (lit "<html>") ∧ rawResult.Data = none :=
  ⟨by decide,
    (CallRestApi_data_raw sampleClient (answeringEnv (lit "<html>")) (lit "mod")
      (lit "act") (lit "x") false rawResult none (by decide)).elim
      (fun form h => ⟨form, h.1, (h.2.2 (lit "<html>") rfl).1 rfl⟩)⟩

end Stratumclient
